import Mathlib

/- The Batteries `Rat` arithmetic is `@[irreducible]`; restore plain
reducibility so that concrete rational computations evaluate with `decide`. -/
set_option allowUnsafeReducibility true
attribute [local semireducible] Rat.add Rat.sub Rat.mul Rat.neg Rat.inv

/-!
Verification of the SMC trading repository's market-structure analysis and
strategy-arbitration core against its natural-language specification.

The Python source is shallowly embedded: pandas DataFrames become Lean lists of
typed rows (one structure field per column the analysed functions read), NaN
cells become `Option` values, Python floats become `ℚ`, and the in-place
DataFrame mutation performed by `calculate_smc` is made explicit through a small
reference/heap model.  Every definition follows the corresponding source
function; deviations forced by the embedding (e.g. typed columns instead of
string-keyed columns) are noted in the doc comments.
-/

/-- Python `int()` applied to a rational: truncation toward zero. -/
def pyInt (q : ℚ) : Int :=
  if 0 ≤ q then q.floor else q.ceil

/-- Start position of `df.iloc[-lookback:]` on a frame of length `n` with a
default range index.  Python's `-0` is `0`, so a lookback of 0 selects the whole
frame; otherwise the slice starts at `n - lookback` (clamped at 0). -/
def startIdx (n lookback : Nat) : Nat :=
  if lookback = 0 then 0 else n - lookback

/-- Pair each element of `l` with its index, starting from `s`
(models the pandas range index carried by `df.iloc[...]` slices). -/
def enumFrom (s : Nat) : List α → List (Nat × α)
  | [] => []
  | a :: t => (s, a) :: enumFrom (s + 1) t

/-- `Series.tail(2)`: the last two elements (all of them when fewer). -/
def tail2 (l : List α) : List α := l.drop (l.length - 2)

/--
One row of the analysed DataFrame, holding the OHLCV columns and the SMC
indicator columns that `strategy.py` / `smc_indicators.py` read.  A `none`
models a NaN cell.  Columns never read by the embedded functions (timestamp,
open, swing_level, ob_volume, structure_broken_idx, liquidity columns) are
omitted.
-/
structure SMCRow where
  high : ℚ
  low : ℚ
  close : ℚ
  volume : ℚ
  atr14 : Option ℚ
  swing_hl : Option ℚ
  ob : Option ℚ
  ob_top : ℚ
  ob_bottom : ℚ
  ob_strength : ℚ
  ob_mitigated : Option ℚ
  fvg : Option ℚ
  fvg_top : ℚ
  fvg_bottom : ℚ
  fvg_mitigated : Option ℚ
  bos : Option ℚ
  choch : Option ℚ
  structure_level : Option ℚ
  deriving DecidableEq, Inhabited, Repr

/-- The rows of `df.iloc[-lookback:]` paired with their original indices. -/
def recentEnum (df : List SMCRow) (lookback : Nat) : List (Nat × SMCRow) :=
  enumFrom (startIdx df.length lookback) (df.drop (startIdx df.length lookback))

/-- An order-block tuple `(index, top, bottom, strength)` as built by
`get_active_order_blocks`. -/
def OBTuple : Type := Nat × ℚ × ℚ × ℚ

instance : DecidableEq OBTuple := by unfold OBTuple; infer_instance

/-- An FVG tuple `(index, top, bottom)` as built by `get_active_fvgs`. -/
def FVGTuple : Type := Nat × ℚ × ℚ

instance : DecidableEq FVGTuple := by unfold FVGTuple; infer_instance

/-- `not pd.isna(mitigated_idx) and mitigated_idx <= current_idx`: the
mitigation test shared by the two active-entity scans. -/
def mitigatedLe (o : Option ℚ) (current : ℚ) : Bool :=
  match o with
  | none => false
  | some m => decide (m ≤ current)

/-- Loop body of `get_active_order_blocks`: walk the recent rows in order,
skip NaN `ob` cells, skip blocks whose `ob_mitigated` is set and `≤ current`,
and partition the surviving tuples by direction (`1` bullish, `-1` bearish). -/
def obFilter (current : ℚ) : List (Nat × SMCRow) → List OBTuple × List OBTuple
  | [] => ([], [])
  | (idx, r) :: rest =>
    match r.ob with
    | none => obFilter current rest
    | some t =>
      if mitigatedLe r.ob_mitigated current then obFilter current rest
      else if t = 1 then
        ((idx, r.ob_top, r.ob_bottom, r.ob_strength) :: (obFilter current rest).1,
         (obFilter current rest).2)
      else if t = -1 then
        ((obFilter current rest).1,
         (idx, r.ob_top, r.ob_bottom, r.ob_strength) :: (obFilter current rest).2)
      else obFilter current rest

/-- `get_active_order_blocks(df, lookback)` from `smc_indicators.py`:
active (unmitigated) order blocks within the trailing `lookback` rows,
returned as `(bullish, bearish)`. -/
def get_active_order_blocks (df : List SMCRow) (lookback : Nat) :
    List OBTuple × List OBTuple :=
  obFilter ((df.length : ℚ) - 1) (recentEnum df lookback)

/-- Loop body of `get_active_fvgs`, mirrors `obFilter` on the FVG columns. -/
def fvgFilter (current : ℚ) : List (Nat × SMCRow) → List FVGTuple × List FVGTuple
  | [] => ([], [])
  | (idx, r) :: rest =>
    match r.fvg with
    | none => fvgFilter current rest
    | some t =>
      if mitigatedLe r.fvg_mitigated current then fvgFilter current rest
      else if t = 1 then
        ((idx, r.fvg_top, r.fvg_bottom) :: (fvgFilter current rest).1,
         (fvgFilter current rest).2)
      else if t = -1 then
        ((fvgFilter current rest).1,
         (idx, r.fvg_top, r.fvg_bottom) :: (fvgFilter current rest).2)
      else fvgFilter current rest

/-- `get_active_fvgs(df, lookback)` from `smc_indicators.py`. -/
def get_active_fvgs (df : List SMCRow) (lookback : Nat) :
    List FVGTuple × List FVGTuple :=
  fvgFilter ((df.length : ℚ) - 1) (recentEnum df lookback)

/-- Result record of `get_latest_structure`. -/
structure StructResult where
  type : Option String
  direction : Option Int
  level : Option ℚ
  index : Option Nat
  deriving DecidableEq, Repr

/-- The all-`None` structure result. -/
def noStruct : StructResult := ⟨none, none, none, none⟩

/-- Backward scan of `get_latest_structure`: the input list is the recent
window in reverse (most recent row first); return at the first row whose
`choch` is non-NaN (a CHOCH event) or, failing that, whose `bos` is non-NaN. -/
def scanBack : List (Nat × SMCRow) → StructResult
  | [] => noStruct
  | (idx, r) :: rest =>
    match r.choch with
    | some c => ⟨some "CHOCH", some (pyInt c), r.structure_level, some idx⟩
    | none =>
      match r.bos with
      | some b => ⟨some "BOS", some (pyInt b), r.structure_level, some idx⟩
      | none => scanBack rest

/-- `get_latest_structure(df, lookback)` from `smc_indicators.py`: most recent
BOS/CHoCH event in the trailing `lookback` rows, CHOCH checked first. -/
def get_latest_structure (df : List SMCRow) (lookback : Nat) : StructResult :=
  scanBack (recentEnum df lookback).reverse

/-- A trading signal: side (`"LONG"`/`"SHORT"`) together with the details dict
the strategies build (strategy name, entry, stop-loss basis, context level). -/
structure Signal where
  side : String
  strategy : String
  entry_price : ℚ
  stop_loss : Option ℚ
  level : ℚ
  deriving DecidableEq, Repr

/--
The recognized configuration options, with `none` modelling an absent key so
that each `dict.get(key, default)` keeps its source-side default at the use
site.  The nested `config["strategy"] / strategy_settings` dictionary plumbing
of `StrategyManager.__init__` is flattened into this record.
-/
structure Config where
  active_strategies : Option (List String)
  ob_lookback : Option Nat
  require_structure : Option Bool
  require_volume : Option Bool

/-- `active = config.get("strategy", {}).get("active_strategies", ["order_block"])`
followed by the `if not active` fallback. -/
def activeStrategies (cfg : Config) : List String :=
  match cfg.active_strategies with
  | none => ["order_block"]
  | some l => if l = [] then ["order_block"] else l

/-- Bullish loop of `OrderBlockStrategy.get_signal`: first active bullish block
whose zone (top stretched by 0.1%) contains the price, subject to the
structure-direction gate when `require_structure` is set. -/
def obLong (req : Bool) (dir : Option Int) (price : ℚ) :
    List OBTuple → Option Signal
  | [] => none
  | (_, top, bottom, _) :: rest =>
    if bottom ≤ price ∧ price ≤ top * (1001 / 1000) ∧ (req = false ∨ dir = some 1) then
      some ⟨"LONG", "OrderBlock", price, some bottom, top⟩
    else obLong req dir price rest

/-- Bearish loop of `OrderBlockStrategy.get_signal`. -/
def obShort (req : Bool) (dir : Option Int) (price : ℚ) :
    List OBTuple → Option Signal
  | [] => none
  | (_, top, bottom, _) :: rest =>
    if bottom * (999 / 1000) ≤ price ∧ price ≤ top ∧ (req = false ∨ dir = some (-1)) then
      some ⟨"SHORT", "OrderBlock", price, some top, bottom⟩
    else obShort req dir price rest

/-- `OrderBlockStrategy.get_signal` from `strategy.py`. -/
def orderBlock_get_signal (cfg : Config) (df : List SMCRow) (_sym : String) :
    Option Signal :=
  if df.length < 50 then none
  else
    let price := (df.getD (df.length - 1) default).close
    let obs := get_active_order_blocks df (cfg.ob_lookback.getD 50)
    let req := cfg.require_structure.getD true
    let dir := (get_latest_structure df 20).direction
    match obLong req dir price obs.1 with
    | some s => some s
    | none => obShort req dir price obs.2

/-- Long loop of `LiquiditySweepStrategy.get_signal` over the recent swing
rows: a swing low swept by one of the last two lows, with the latest close
back above the level, the optional volume filter, and a sweep deeper than
0.1% of the level. -/
def lsLong (reqVol : Bool) (curr prev : SMCRow) (avgVol : ℚ) :
    List (Nat × SMCRow) → Option Signal
  | [] => none
  | (_, swing) :: rest =>
    if swing.swing_hl = some (-1) ∧
        (prev.low < swing.low ∨ curr.low < swing.low) ∧
        swing.low < curr.close ∧
        (reqVol = false ∨ avgVol * (6 / 5) < curr.volume) ∧
        swing.low * (1 / 1000) < swing.low - min prev.low curr.low then
      some ⟨"LONG", "LiquiditySweep", curr.close, some (min curr.low prev.low), swing.low⟩
    else lsLong reqVol curr prev avgVol rest

/-- Short loop of `LiquiditySweepStrategy.get_signal`, the mirror on swing
highs. -/
def lsShort (reqVol : Bool) (curr prev : SMCRow) (avgVol : ℚ) :
    List (Nat × SMCRow) → Option Signal
  | [] => none
  | (_, swing) :: rest =>
    if swing.swing_hl = some 1 ∧
        (swing.high < prev.high ∨ swing.high < curr.high) ∧
        curr.close < swing.high ∧
        (reqVol = false ∨ avgVol * (6 / 5) < curr.volume) ∧
        swing.high * (1 / 1000) < max prev.high curr.high - swing.high then
      some ⟨"SHORT", "LiquiditySweep", curr.close, some (max curr.high prev.high), swing.high⟩
    else lsShort reqVol curr prev avgVol rest

/-- `LiquiditySweepStrategy.get_signal` from `strategy.py`.  Note the swing
filter `df[df["swing_hl"] != 0]`: in pandas a NaN cell satisfies `!= 0`, so
only rows whose `swing_hl` equals `0` are dropped. -/
def liquiditySweep_get_signal (cfg : Config) (df : List SMCRow) (_sym : String) :
    Option Signal :=
  if df.length < 50 then none
  else
    let n := df.length
    let curr := df.getD (n - 1) default
    let prev := df.getD (n - 2) default
    let vols := (df.drop (n - 20)).map (·.volume)
    let avgVol := vols.sum / (vols.length : ℚ)
    let swings := tail2 ((enumFrom 0 df).filter fun p => decide (¬ p.2.swing_hl = some 0))
    let reqVol := cfg.require_volume.getD true
    match lsLong reqVol curr prev avgVol swings with
    | some s => some s
    | none => lsShort reqVol curr prev avgVol swings

/-- A strategy as seen by `StrategyManager.check_signals`: it may raise
(`Except.error`), return no signal, or return a signal. -/
def StratFn : Type := List SMCRow → String → Except String (Option Signal)

/-- `OrderBlockStrategy` wrapped as a manager-level strategy (it raises no
exception of its own in the embedded fragment). -/
def obStratFn (cfg : Config) : StratFn :=
  fun df sym => .ok (orderBlock_get_signal cfg df sym)

/-- `LiquiditySweepStrategy` wrapped as a manager-level strategy. -/
def lsStratFn (cfg : Config) : StratFn :=
  fun df sym => .ok (liquiditySweep_get_signal cfg df sym)

/--
The strategy list built by `StrategyManager.__init__`: membership in
`active_strategies` decides inclusion, but the order is the fixed source order
order_block, liquidity_sweep, silver_bullet.  `SilverBulletStrategy` consults
the wall clock, so it is passed in as the parameter `sb` rather than embedded;
none of the verified claims depends on its behaviour.
-/
def strategyList (cfg : Config) (sb : StratFn) : List StratFn :=
  (if "order_block" ∈ activeStrategies cfg then [obStratFn cfg] else []) ++
  (if "liquidity_sweep" ∈ activeStrategies cfg then [lsStratFn cfg] else []) ++
  (if "silver_bullet" ∈ activeStrategies cfg then [sb] else [])

/-- The loop of `StrategyManager.check_signals`: first `ok (some _)` wins,
exceptions and empty results both fall through to the next strategy. -/
def checkSignalsList : List StratFn → List SMCRow → String → Option Signal
  | [], _, _ => none
  | s :: rest, df, sym =>
    match s df sym with
    | .error _ => checkSignalsList rest df sym
    | .ok none => checkSignalsList rest df sym
    | .ok (some sig) => some sig

/-- `StrategyManager.check_signals` from `strategy.py`. -/
def checkSignals (cfg : Config) (sb : StratFn) (df : List SMCRow) (sym : String) :
    Option Signal :=
  checkSignalsList (strategyList cfg sb) df sym

/-- The `details` dict as consumed by `get_exit_levels`: only the
`"stop_loss"` key is read (absent key modelled by `none`). -/
structure ExitDetails where
  stop_loss : Option ℚ

/-- The ATR lookup at the head of `get_exit_levels`: the `try/except` around
`df.iloc[-1]["atr_14"]` (empty frame or missing column) and the subsequent
`pd.isna` check both replace the ATR by `entry_price * 0.01`. -/
def exitAtr (entry_price : ℚ) (df : List SMCRow) : ℚ :=
  match df.getLast? with
  | none => entry_price * (1 / 100)
  | some r =>
    match r.atr14 with
    | none => entry_price * (1 / 100)
    | some a => a

/-- `StrategyManager.get_exit_levels` from `strategy.py`, returning
`(sl_price, tp_price)`. -/
def get_exit_levels (entry_price : ℚ) (side : String) (df : List SMCRow)
    (details : ExitDetails) : ℚ × ℚ :=
  let atr : ℚ := exitAtr entry_price df
  let stop_basis := details.stop_loss.getD entry_price
  if side = "LONG" then
    let sl := if entry_price ≤ stop_basis then entry_price - atr * 1 else stop_basis
    (sl, entry_price + (entry_price - sl) * 2)
  else if side = "SHORT" then
    let sl := if stop_basis ≤ entry_price then entry_price + atr * 1 else stop_basis
    (sl, entry_price - (sl - entry_price) * 2)
  else (0, 0)

/-- One raw OHLCV candle as fetched by the data layer (timestamp omitted:
none of the analysed functions reads it). -/
structure Candle where
  high : ℚ
  low : ℚ
  close : ℚ
  volume : ℚ
  deriving DecidableEq, Inhabited, Repr

/-- Tail of the true-range column: each element is
`max(high - low, |high - prevClose|, |low - prevClose|)`. -/
def trTail (prev : Candle) : List Candle → List ℚ
  | [] => []
  | c :: rest =>
    max (c.high - c.low) (max |c.high - prev.close| |c.low - prev.close|) ::
      trTail c rest

/-- The true-range column of `add_atr`.  At index 0 `close.shift(1)` is NaN, so
the row-wise `max` (pandas skips NaN) degenerates to `high - low`. -/
def trCol : List Candle → List ℚ
  | [] => []
  | c :: rest => (c.high - c.low) :: trTail c rest

/-- `Series.rolling(window=p).mean()` with the default `min_periods = p`:
NaN (`none`) while fewer than `p` observations are available, then the mean of
the last `p` values. -/
def rollingMean (p : Nat) (l : List ℚ) : List (Option ℚ) :=
  (List.range l.length).map fun i =>
    if i + 1 < p then none
    else some (((l.drop (i + 1 - p)).take p).sum / (p : ℚ))

/-- `add_atr(df, period)` from `smc_indicators.py`, modelled as the
`atr_{period}` column it assigns onto the frame. -/
def add_atr (df : List Candle) (period : Nat) : List (Option ℚ) :=
  rollingMean period (trCol df)

/-- The indicator columns `calculate_smc` assigns, each a full-length column of
possibly-NaN cells. -/
structure ExtraCols where
  atr : List (Option ℚ)
  swing_hl : List (Option ℚ)
  swing_level : List (Option ℚ)
  fvg : List (Option ℚ)
  fvg_top : List (Option ℚ)
  fvg_bottom : List (Option ℚ)
  fvg_mitigated : List (Option ℚ)
  bos : List (Option ℚ)
  choch : List (Option ℚ)
  structure_level : List (Option ℚ)
  structure_broken_idx : List (Option ℚ)
  ob : List (Option ℚ)
  ob_top : List (Option ℚ)
  ob_bottom : List (Option ℚ)
  ob_volume : List (Option ℚ)
  ob_mitigated : List (Option ℚ)
  ob_strength : List (Option ℚ)
  liquidity : List (Option ℚ)
  liq_level : List (Option ℚ)
  liq_swept : List (Option ℚ)
  deriving DecidableEq, Inhabited, Repr

/-- A DataFrame as handled by `calculate_smc`: the raw candle columns plus the
indicator columns once (and if) they have been assigned. -/
structure CalcDF where
  candles : List Candle
  extra : Option ExtraCols
  deriving DecidableEq, Inhabited, Repr

/-- Output columns of `smc.swing_highs_lows`: `HighLow` and `Level`. -/
structure SwingOut where
  highLow : List (Option ℚ)
  level : List (Option ℚ)

/-- Output columns of `smc.fvg`. -/
structure FvgOut where
  fvg : List (Option ℚ)
  top : List (Option ℚ)
  bottom : List (Option ℚ)
  mitigatedIndex : List (Option ℚ)

/-- Output columns of `smc.bos_choch`. -/
structure BosOut where
  bos : List (Option ℚ)
  choch : List (Option ℚ)
  level : List (Option ℚ)
  brokenIndex : List (Option ℚ)

/-- Output columns of `smc.ob`. -/
structure ObOut where
  ob : List (Option ℚ)
  top : List (Option ℚ)
  bottom : List (Option ℚ)
  obVolume : List (Option ℚ)
  mitigatedIndex : List (Option ℚ)
  percentage : List (Option ℚ)

/-- Output columns of `smc.liquidity`. -/
structure LiqOut where
  liquidity : List (Option ℚ)
  level : List (Option ℚ)
  swept : List (Option ℚ)

/--
The external `smartmoneyconcepts` library, over which all `calculate_smc`
theorems are universally quantified: each field models one `smc.*` call with
the parameters `calculate_smc` passes (swing length; `join_consecutive`;
`close_break`; `close_mitigation`; `range_percent`).
-/
structure SMCLib where
  swing_highs_lows : List Candle → Nat → SwingOut
  fvg : List Candle → Bool → FvgOut
  bos_choch : List Candle → SwingOut → Bool → BosOut
  ob : List Candle → SwingOut → Bool → ObOut
  liquidity : List Candle → SwingOut → ℚ → LiqOut

/-- The full indicator-column block assigned by the sufficient-data branch of
`calculate_smc`, in source assignment order. -/
def enrichCols (lib : SMCLib) (c : List Candle) (swing_length : Nat)
    (fvg_join_consecutive : Bool) (atr_period : Nat) : ExtraCols :=
  let sw := lib.swing_highs_lows c swing_length
  let f := lib.fvg c fvg_join_consecutive
  let bc := lib.bos_choch c sw true
  let o := lib.ob c sw false
  let lq := lib.liquidity c sw (1 / 100)
  { atr := add_atr c atr_period
    swing_hl := sw.highLow
    swing_level := sw.level
    fvg := f.fvg
    fvg_top := f.top
    fvg_bottom := f.bottom
    fvg_mitigated := f.mitigatedIndex
    bos := bc.bos
    choch := bc.choch
    structure_level := bc.level
    structure_broken_idx := bc.brokenIndex
    ob := o.ob
    ob_top := o.top
    ob_bottom := o.bottom
    ob_volume := o.obVolume
    ob_mitigated := o.mitigatedIndex
    ob_strength := o.percentage
    liquidity := lq.liquidity
    liq_level := lq.level
    liq_swept := lq.swept }

/-- `calculate_smc` from `smc_indicators.py` as a value-level function: the
insufficient-data guard `len(df) < swing_length * 2 + 10` returns the input
unchanged; otherwise all indicator columns are computed over the candles
(the column-name lowercasing is the identity in this typed embedding). -/
def calculate_smc (lib : SMCLib) (df : CalcDF) (swing_length : Nat)
    (fvg_join_consecutive : Bool) (atr_period : Nat) : CalcDF :=
  if df.candles.length < swing_length * 2 + 10 then df
  else ⟨df.candles, some (enrichCols lib df.candles swing_length fvg_join_consecutive atr_period)⟩

/-- A heap of DataFrame objects: Python names hold references (`Nat`), and
`df.copy()` allocates at the next fresh reference. -/
structure Heap where
  mem : Nat → CalcDF
  next : Nat

/-- Dereference. -/
def readRef (h : Heap) (r : Nat) : CalcDF := h.mem r

/-- In-place mutation of the object behind `r` (a `df[col] = ...`
assignment). -/
def writeRef (h : Heap) (r : Nat) (v : CalcDF) : Heap :=
  ⟨fun i => if i = r then v else h.mem i, h.next⟩

/-- `df.copy()`: allocate a fresh object holding `v`. -/
def allocRef (h : Heap) (v : CalcDF) : Heap × Nat :=
  (⟨fun i => if i = h.next then v else h.mem i, h.next + 1⟩, h.next)

/--
`calculate_smc` with Python reference semantics made explicit: the caller
passes a reference `r`; the insufficient branch returns `r` untouched, the
sufficient branch rebinds the local name to a fresh copy and performs every
column assignment on that copy (staged per source block: ATR, swings, FVG,
structure, order blocks, liquidity), returning the copy's reference.
-/
def calculate_smc_st (lib : SMCLib) (h : Heap) (r : Nat) (swing_length : Nat)
    (fvg_join_consecutive : Bool) (atr_period : Nat) : Heap × Nat :=
  let df := readRef h r
  if df.candles.length < swing_length * 2 + 10 then (h, r)
  else
    let (h1, r1) := allocRef h df
    let c := (readRef h1 r1).candles
    let sw := lib.swing_highs_lows c swing_length
    let f := lib.fvg c fvg_join_consecutive
    let bc := lib.bos_choch c sw true
    let o := lib.ob c sw false
    let lq := lib.liquidity c sw (1 / 100)
    let e1 : ExtraCols := { (default : ExtraCols) with atr := add_atr c atr_period }
    let h2 := writeRef h1 r1 ⟨c, some e1⟩
    let e2 := { e1 with swing_hl := sw.highLow, swing_level := sw.level }
    let h3 := writeRef h2 r1 ⟨c, some e2⟩
    let e3 := { e2 with fvg := f.fvg, fvg_top := f.top, fvg_bottom := f.bottom,
                        fvg_mitigated := f.mitigatedIndex }
    let h4 := writeRef h3 r1 ⟨c, some e3⟩
    let e4 := { e3 with bos := bc.bos, choch := bc.choch, structure_level := bc.level,
                        structure_broken_idx := bc.brokenIndex }
    let h5 := writeRef h4 r1 ⟨c, some e4⟩
    let e5 := { e4 with ob := o.ob, ob_top := o.top, ob_bottom := o.bottom,
                        ob_volume := o.obVolume, ob_mitigated := o.mitigatedIndex,
                        ob_strength := o.percentage }
    let h6 := writeRef h5 r1 ⟨c, some e5⟩
    let e6 := { e5 with liquidity := lq.liquidity, liq_level := lq.level,
                        liq_swept := lq.swept }
    (writeRef h6 r1 ⟨c, some e6⟩, r1)

/-! ### Concrete inputs used by the counterexamples and witnesses -/

/-- A frame whose last candle carries `atr_14 = 500`. -/
def df500 : List SMCRow := [{ (default : SMCRow) with atr14 := some 500 }]

/-- A neutral filler row: no swing, no order block, no FVG, no structure. -/
def fillRow : SMCRow :=
  { (default : SMCRow) with
    high := 503 / 5, low := 1001 / 10, close := 502 / 5, volume := 1,
    swing_hl := some 0 }

/-- Row 45 of `dfC1`: an unmitigated bullish order block `[100.2, 101]`. -/
def obRowC1 : SMCRow :=
  { fillRow with ob := some 1, ob_top := 101, ob_bottom := 501 / 5, ob_strength := 50 }

/-- Row 48 of `dfC1`: a swing low at 100. -/
def swingRowC1 : SMCRow :=
  { fillRow with swing_hl := some (-1), low := 100, close := 1003 / 10 }

/-- Row 49 of `dfC1`: the current candle — sweeps the swing low (low 99.8),
closes back above it at 100.5, inside the order block's stretched zone. -/
def currRowC1 : SMCRow :=
  { fillRow with low := 499 / 5, close := 201 / 2 }

/-- A 50-row frame on which both `OrderBlockStrategy` and
`LiquiditySweepStrategy` produce a LONG signal. -/
def dfC1 : List SMCRow :=
  List.replicate 45 fillRow ++ [obRowC1] ++ List.replicate 2 fillRow ++
    [swingRowC1, currRowC1]

/-- Configuration with `active_strategies = ["liquidity_sweep", "order_block"]`
and both optional filters disabled. -/
def cfgC1 : Config :=
  ⟨some ["liquidity_sweep", "order_block"], some 50, some false, some false⟩

/-- Configuration activating only the order-block strategy. -/
def cfgOB : Config := ⟨some ["order_block"], some 50, some false, some false⟩

/-- A silver-bullet stand-in that never signals (unused: `"silver_bullet"` is
not active in any example configuration). -/
def sbNone : StratFn := fun _ _ => .ok none

/-- The signal `OrderBlockStrategy` yields on `dfC1`. -/
def sigC1 : Signal := ⟨"LONG", "OrderBlock", 201 / 2, some (501 / 5), 101⟩

/-- A strategy that raises. -/
def errStrat : StratFn := fun _ _ => .error "boom"

/-- A strategy that returns no signal. -/
def skipStrat : StratFn := fun _ _ => .ok none

/-- Three-row frame whose last row is a bullish order block mitigated exactly
at the current index (`ob_mitigated = 2 = len - 1`). -/
def dfC7 : List SMCRow :=
  [default, default,
   { (default : SMCRow) with ob := some 1, ob_top := 5, ob_bottom := 4,
                             ob_strength := 7, ob_mitigated := some 2 }]

/-- One-row frame with an order block and an FVG both mitigated in the future
(`mitigated_at_index = 5 > current = 0`), hence active. -/
def dfW3 : List SMCRow :=
  [{ (default : SMCRow) with ob := some 1, ob_top := 2, ob_bottom := 1,
                             ob_strength := 3, ob_mitigated := some 5,
                             fvg := some 1, fvg_top := 2, fvg_bottom := 1,
                             fvg_mitigated := some 5 }]

/-- Two-row frame with a CHOCH on the last row. -/
def dfC4 : List SMCRow :=
  [default, { (default : SMCRow) with choch := some 1, structure_level := some 42 }]

/-- Two candles for the ATR example: true ranges 2 and 2. -/
def dfATR : List Candle := [⟨10, 8, 9, 1⟩, ⟨11, 9, 10, 1⟩]

/-- An `smartmoneyconcepts` instance returning empty columns, used to
instantiate library-polymorphic theorems. -/
def trivLib : SMCLib :=
  ⟨fun _ _ => ⟨[], []⟩, fun _ _ => ⟨[], [], [], []⟩, fun _ _ _ => ⟨[], [], [], []⟩,
   fun _ _ _ => ⟨[], [], [], [], [], []⟩, fun _ _ _ => ⟨[], [], []⟩⟩

/-- 25 candles: more than `2w + 1` but fewer than `2w + 10` for `w = 10`. -/
def df25 : CalcDF := ⟨List.replicate 25 default, none⟩

/-- 30 candles: enough for `calculate_smc` at `w = 10`. -/
def df30 : CalcDF := ⟨List.replicate 30 default, none⟩

/-- A one-object heap whose reference 0 holds `df25`. -/
def heap25 : Heap := ⟨fun _ => df25, 1⟩

/-- A one-object heap whose reference 0 holds `df30`. -/
def heap30 : Heap := ⟨fun _ => df30, 1⟩

/-! ## Helper lemmas -/

/-- Stop-loss of the `LONG` branch of `get_exit_levels`, written out. -/
theorem get_exit_levels_long_sl (entry : ℚ) (df : List SMCRow) (d : ExitDetails) :
    (get_exit_levels entry "LONG" df d).1 =
      if entry ≤ d.stop_loss.getD entry then entry - exitAtr entry df * 1
      else d.stop_loss.getD entry := rfl

/-- Take-profit of the `LONG` branch of `get_exit_levels`, written out. -/
theorem get_exit_levels_long_tp (entry : ℚ) (df : List SMCRow) (d : ExitDetails) :
    (get_exit_levels entry "LONG" df d).2 =
      entry + (entry -
        (if entry ≤ d.stop_loss.getD entry then entry - exitAtr entry df * 1
         else d.stop_loss.getD entry)) * 2 := rfl

/-- Stop-loss of the `SHORT` branch of `get_exit_levels`, written out. -/
theorem get_exit_levels_short_sl (entry : ℚ) (df : List SMCRow) (d : ExitDetails) :
    (get_exit_levels entry "SHORT" df d).1 =
      if d.stop_loss.getD entry ≤ entry then entry + exitAtr entry df * 1
      else d.stop_loss.getD entry := rfl

/-- Take-profit of the `SHORT` branch of `get_exit_levels`, written out. -/
theorem get_exit_levels_short_tp (entry : ℚ) (df : List SMCRow) (d : ExitDetails) :
    (get_exit_levels entry "SHORT" df d).2 =
      entry -
        ((if d.stop_loss.getD entry ≤ entry then entry + exitAtr entry df * 1
          else d.stop_loss.getD entry) - entry) * 2 := rfl

/-- The effective ATR of `get_exit_levels` is positive whenever the entry is
positive and any present last-row ATR is positive. -/
theorem exitAtr_pos (entry : ℚ) (df : List SMCRow) (hentry : 0 < entry)
    (hatr : ∀ r, df.getLast? = some r → ∀ a, r.atr14 = some a → 0 < a) :
    0 < exitAtr entry df := by
  unfold exitAtr
  split
  · exact mul_pos hentry (by norm_num)
  · rename_i r hl
    split
    · exact mul_pos hentry (by norm_num)
    · rename_i a ha
      exact hatr r hl a ha

/-- A strategy list none of whose members signals makes
`checkSignalsList` return `none`. -/
theorem checkSignalsList_eq_none (df : List SMCRow) (sym : String)
    (ss : List StratFn) (h : ∀ s, s ∈ ss → ∀ sig, s df sym ≠ .ok (some sig)) :
    checkSignalsList ss df sym = none := by
  induction ss with
  | nil => rfl
  | cons s rest ih =>
    cases hres : s df sym with
    | error e =>
      simpa [checkSignalsList, hres] using
        ih fun s' hs' => h s' (List.mem_cons_of_mem _ hs')
    | ok o =>
      cases o with
      | none =>
        simpa [checkSignalsList, hres] using
          ih fun s' hs' => h s' (List.mem_cons_of_mem _ hs')
      | some sig => exact absurd hres (h s (List.mem_cons_self _ _) sig)

/-- Removing a raising strategy from anywhere in the list leaves
`checkSignalsList` unchanged. -/
theorem checkSignalsList_drop_error (ss₁ ss₂ : List StratFn) (e : StratFn)
    (df : List SMCRow) (sym msg : String) (he : e df sym = .error msg) :
    checkSignalsList (ss₁ ++ e :: ss₂) df sym = checkSignalsList (ss₁ ++ ss₂) df sym := by
  induction ss₁ with
  | nil => simp [checkSignalsList, he]
  | cons s rest ih =>
    cases hres : s df sym with
    | error e2 => simp [checkSignalsList, hres, ih]
    | ok o =>
      cases o with
      | none => simp [checkSignalsList, hres, ih]
      | some sig => simp [checkSignalsList, hres]

/-- Membership in an index-enumerated list. -/
theorem mem_enumFrom (l : List α) (s i : Nat) (a : α) :
    (i, a) ∈ enumFrom s l ↔ s ≤ i ∧ l[i - s]? = some a := by
  induction l generalizing s with
  | nil => simp [enumFrom]
  | cons c t ih =>
    simp only [enumFrom, List.mem_cons, ih (s + 1), Prod.mk.injEq]
    constructor
    · rintro (⟨rfl, rfl⟩ | ⟨hs, hg⟩)
      · simp
      · refine ⟨by omega, ?_⟩
        rw [show i - s = (i - (s + 1)) + 1 from by omega, List.getElem?_cons_succ]
        exact hg
    · rintro ⟨hs, hg⟩
      rcases Nat.eq_or_lt_of_le hs with rfl | hlt
      · left
        simp only [Nat.sub_self, List.getElem?_cons_zero, Option.some.injEq] at hg
        exact ⟨rfl, hg.symm⟩
      · right
        refine ⟨by omega, ?_⟩
        rw [show i - s = (i - (s + 1)) + 1 from by omega, List.getElem?_cons_succ] at hg
        exact hg

/-- Membership in the enumerated trailing window selected by
`df.iloc[-lookback:]`. -/
theorem mem_recentEnum (df : List SMCRow) (lb i : Nat) (r : SMCRow) :
    (i, r) ∈ recentEnum df lb ↔ startIdx df.length lb ≤ i ∧ df[i]? = some r := by
  unfold recentEnum
  rw [mem_enumFrom]
  constructor
  · rintro ⟨hs, hg⟩
    rw [List.getElem?_drop,
      show startIdx df.length lb + (i - startIdx df.length lb) = i from by omega] at hg
    exact ⟨hs, hg⟩
  · rintro ⟨hs, hg⟩
    refine ⟨hs, ?_⟩
    rw [List.getElem?_drop,
      show startIdx df.length lb + (i - startIdx df.length lb) = i from by omega]
    exact hg

/-- The mitigation test fails exactly for a NaN `mitigated_at_index` or one
strictly beyond `current`. -/
theorem mitigatedLe_eq_false_iff (o : Option ℚ) (c : ℚ) :
    mitigatedLe o c = false ↔ o = none ∨ ∃ m, o = some m ∧ c < m := by
  cases o with
  | none => simp [mitigatedLe]
  | some m => simp [mitigatedLe, not_le]

/-- Membership in the bullish output of the order-block scan loop. -/
theorem mem_obFilter_bullish (current : ℚ) (l : List (Nat × SMCRow)) (i : Nat)
    (t b s : ℚ) :
    ((i, t, b, s) : OBTuple) ∈ (obFilter current l).1 ↔
      ∃ r, (i, r) ∈ l ∧ r.ob = some 1 ∧ mitigatedLe r.ob_mitigated current = false ∧
        t = r.ob_top ∧ b = r.ob_bottom ∧ s = r.ob_strength := by
  induction l with
  | nil => simp [obFilter]
  | cons p rest ih =>
    obtain ⟨idx, r0⟩ := p
    have hstep :
        ∀ r, ((i, r) ∈ (idx, r0) :: rest ∧ r.ob = some 1 ∧
            mitigatedLe r.ob_mitigated current = false ∧
            t = r.ob_top ∧ b = r.ob_bottom ∧ s = r.ob_strength) ↔
          ((i = idx ∧ r = r0 ∧ r0.ob = some 1 ∧
            mitigatedLe r0.ob_mitigated current = false ∧
            t = r0.ob_top ∧ b = r0.ob_bottom ∧ s = r0.ob_strength) ∨
          ((i, r) ∈ rest ∧ r.ob = some 1 ∧
            mitigatedLe r.ob_mitigated current = false ∧
            t = r.ob_top ∧ b = r.ob_bottom ∧ s = r.ob_strength)) := by
      intro r
      constructor
      · rintro ⟨hm, hrest⟩
        rcases List.mem_cons.mp hm with heq | hm2
        · obtain ⟨rfl, rfl⟩ := Prod.mk.injEq .. |>.mp heq
          exact Or.inl ⟨rfl, rfl, hrest⟩
        · exact Or.inr ⟨hm2, hrest⟩
      · rintro (⟨rfl, rfl, hrest⟩ | ⟨hm2, hrest⟩)
        · exact ⟨List.mem_cons_self _ _, hrest⟩
        · exact ⟨List.mem_cons_of_mem _ hm2, hrest⟩
    cases hob : r0.ob with
    | none =>
      have hred : (obFilter current ((idx, r0) :: rest)).1 = (obFilter current rest).1 := by
        simp [obFilter, hob]
      rw [hred, ih]
      constructor
      · rintro ⟨r, hm, hrest⟩
        exact ⟨r, (hstep r).mpr (Or.inr ⟨hm, hrest⟩)⟩
      · rintro ⟨r, hall⟩
        rcases (hstep r).mp hall with ⟨_, rfl, h1, _⟩ | ⟨hm2, hrest⟩
        · rw [hob] at h1; cases h1
        · exact ⟨r, hm2, hrest⟩
    | some t0 =>
      cases hmit : mitigatedLe r0.ob_mitigated current with
      | true =>
        have hred : (obFilter current ((idx, r0) :: rest)).1 = (obFilter current rest).1 := by
          simp [obFilter, hob, hmit]
        rw [hred, ih]
        constructor
        · rintro ⟨r, hm, hrest⟩
          exact ⟨r, (hstep r).mpr (Or.inr ⟨hm, hrest⟩)⟩
        · rintro ⟨r, hall⟩
          rcases (hstep r).mp hall with ⟨_, rfl, _, h2, _⟩ | ⟨hm2, hrest⟩
          · rw [hmit] at h2; cases h2
          · exact ⟨r, hm2, hrest⟩
      | false =>
        by_cases h1 : t0 = 1
        · subst h1
          have hred : (obFilter current ((idx, r0) :: rest)).1 =
              (idx, r0.ob_top, r0.ob_bottom, r0.ob_strength) :: (obFilter current rest).1 := by
            simp [obFilter, hob, hmit]
          rw [hred]
          constructor
          · intro hm
            rcases List.mem_cons.mp hm with heq | hm2
            · simp only [Prod.mk.injEq] at heq
              obtain ⟨rfl, rfl, rfl, rfl⟩ := heq
              exact ⟨r0, (hstep r0).mpr (Or.inl ⟨rfl, rfl, hob, hmit, rfl, rfl, rfl⟩)⟩
            · obtain ⟨r, hm3, hrest⟩ := ih.mp hm2
              exact ⟨r, (hstep r).mpr (Or.inr ⟨hm3, hrest⟩)⟩
          · rintro ⟨r, hall⟩
            rcases (hstep r).mp hall with ⟨rfl, rfl, _, _, rfl, rfl, rfl⟩ | ⟨hm2, hrest⟩
            · exact List.mem_cons_self _ _
            · exact List.mem_cons_of_mem _ (ih.mpr ⟨r, hm2, hrest⟩)
        · have hred : (obFilter current ((idx, r0) :: rest)).1 = (obFilter current rest).1 := by
            by_cases h2 : t0 = -1
            · simp [obFilter, hob, hmit, h1, h2, show ¬((-1 : ℚ) = 1) from by norm_num]
            · simp [obFilter, hob, hmit, h1, h2]
          rw [hred, ih]
          constructor
          · rintro ⟨r, hm, hrest⟩
            exact ⟨r, (hstep r).mpr (Or.inr ⟨hm, hrest⟩)⟩
          · rintro ⟨r, hall⟩
            rcases (hstep r).mp hall with ⟨_, rfl, hx, _⟩ | ⟨hm2, hrest⟩
            · rw [hob] at hx; exact absurd (Option.some.inj hx) h1
            · exact ⟨r, hm2, hrest⟩

/-- Membership in the bearish output of the order-block scan loop. -/
theorem mem_obFilter_bearish (current : ℚ) (l : List (Nat × SMCRow)) (i : Nat)
    (t b s : ℚ) :
    ((i, t, b, s) : OBTuple) ∈ (obFilter current l).2 ↔
      ∃ r, (i, r) ∈ l ∧ r.ob = some (-1) ∧ mitigatedLe r.ob_mitigated current = false ∧
        t = r.ob_top ∧ b = r.ob_bottom ∧ s = r.ob_strength := by
  induction l with
  | nil => simp [obFilter]
  | cons p rest ih =>
    obtain ⟨idx, r0⟩ := p
    have hstep :
        ∀ r, ((i, r) ∈ (idx, r0) :: rest ∧ r.ob = some (-1) ∧
            mitigatedLe r.ob_mitigated current = false ∧
            t = r.ob_top ∧ b = r.ob_bottom ∧ s = r.ob_strength) ↔
          ((i = idx ∧ r = r0 ∧ r0.ob = some (-1) ∧
            mitigatedLe r0.ob_mitigated current = false ∧
            t = r0.ob_top ∧ b = r0.ob_bottom ∧ s = r0.ob_strength) ∨
          ((i, r) ∈ rest ∧ r.ob = some (-1) ∧
            mitigatedLe r.ob_mitigated current = false ∧
            t = r.ob_top ∧ b = r.ob_bottom ∧ s = r.ob_strength)) := by
      intro r
      constructor
      · rintro ⟨hm, hrest⟩
        rcases List.mem_cons.mp hm with heq | hm2
        · obtain ⟨rfl, rfl⟩ := Prod.mk.injEq .. |>.mp heq
          exact Or.inl ⟨rfl, rfl, hrest⟩
        · exact Or.inr ⟨hm2, hrest⟩
      · rintro (⟨rfl, rfl, hrest⟩ | ⟨hm2, hrest⟩)
        · exact ⟨List.mem_cons_self _ _, hrest⟩
        · exact ⟨List.mem_cons_of_mem _ hm2, hrest⟩
    cases hob : r0.ob with
    | none =>
      have hred : (obFilter current ((idx, r0) :: rest)).2 = (obFilter current rest).2 := by
        simp [obFilter, hob]
      rw [hred, ih]
      constructor
      · rintro ⟨r, hm, hrest⟩
        exact ⟨r, (hstep r).mpr (Or.inr ⟨hm, hrest⟩)⟩
      · rintro ⟨r, hall⟩
        rcases (hstep r).mp hall with ⟨_, rfl, h1, _⟩ | ⟨hm2, hrest⟩
        · rw [hob] at h1; cases h1
        · exact ⟨r, hm2, hrest⟩
    | some t0 =>
      cases hmit : mitigatedLe r0.ob_mitigated current with
      | true =>
        have hred : (obFilter current ((idx, r0) :: rest)).2 = (obFilter current rest).2 := by
          simp [obFilter, hob, hmit]
        rw [hred, ih]
        constructor
        · rintro ⟨r, hm, hrest⟩
          exact ⟨r, (hstep r).mpr (Or.inr ⟨hm, hrest⟩)⟩
        · rintro ⟨r, hall⟩
          rcases (hstep r).mp hall with ⟨_, rfl, _, h2, _⟩ | ⟨hm2, hrest⟩
          · rw [hmit] at h2; cases h2
          · exact ⟨r, hm2, hrest⟩
      | false =>
        by_cases h2 : t0 = -1
        · subst h2
          have hred : (obFilter current ((idx, r0) :: rest)).2 =
              (idx, r0.ob_top, r0.ob_bottom, r0.ob_strength) :: (obFilter current rest).2 := by
            simp [obFilter, hob, hmit, show ¬((-1 : ℚ) = 1) from by norm_num]
          rw [hred]
          constructor
          · intro hm
            rcases List.mem_cons.mp hm with heq | hm2
            · simp only [Prod.mk.injEq] at heq
              obtain ⟨rfl, rfl, rfl, rfl⟩ := heq
              exact ⟨r0, (hstep r0).mpr (Or.inl ⟨rfl, rfl, hob, hmit, rfl, rfl, rfl⟩)⟩
            · obtain ⟨r, hm3, hrest⟩ := ih.mp hm2
              exact ⟨r, (hstep r).mpr (Or.inr ⟨hm3, hrest⟩)⟩
          · rintro ⟨r, hall⟩
            rcases (hstep r).mp hall with ⟨rfl, rfl, _, _, rfl, rfl, rfl⟩ | ⟨hm2, hrest⟩
            · exact List.mem_cons_self _ _
            · exact List.mem_cons_of_mem _ (ih.mpr ⟨r, hm2, hrest⟩)
        · have hred : (obFilter current ((idx, r0) :: rest)).2 = (obFilter current rest).2 := by
            by_cases h1 : t0 = 1 <;> simp [obFilter, hob, hmit, h1, h2]
          rw [hred, ih]
          constructor
          · rintro ⟨r, hm, hrest⟩
            exact ⟨r, (hstep r).mpr (Or.inr ⟨hm, hrest⟩)⟩
          · rintro ⟨r, hall⟩
            rcases (hstep r).mp hall with ⟨_, rfl, hx, _⟩ | ⟨hm2, hrest⟩
            · rw [hob] at hx; exact absurd (Option.some.inj hx) h2
            · exact ⟨r, hm2, hrest⟩

/-- Membership in the bullish output of the FVG scan loop. -/
theorem mem_fvgFilter_bullish (current : ℚ) (l : List (Nat × SMCRow)) (i : Nat)
    (t b : ℚ) :
    ((i, t, b) : FVGTuple) ∈ (fvgFilter current l).1 ↔
      ∃ r, (i, r) ∈ l ∧ r.fvg = some 1 ∧ mitigatedLe r.fvg_mitigated current = false ∧
        t = r.fvg_top ∧ b = r.fvg_bottom := by
  induction l with
  | nil => simp [fvgFilter]
  | cons p rest ih =>
    obtain ⟨idx, r0⟩ := p
    have hstep :
        ∀ r, ((i, r) ∈ (idx, r0) :: rest ∧ r.fvg = some 1 ∧
            mitigatedLe r.fvg_mitigated current = false ∧
            t = r.fvg_top ∧ b = r.fvg_bottom) ↔
          ((i = idx ∧ r = r0 ∧ r0.fvg = some 1 ∧
            mitigatedLe r0.fvg_mitigated current = false ∧
            t = r0.fvg_top ∧ b = r0.fvg_bottom) ∨
          ((i, r) ∈ rest ∧ r.fvg = some 1 ∧
            mitigatedLe r.fvg_mitigated current = false ∧
            t = r.fvg_top ∧ b = r.fvg_bottom)) := by
      intro r
      constructor
      · rintro ⟨hm, hrest⟩
        rcases List.mem_cons.mp hm with heq | hm2
        · obtain ⟨rfl, rfl⟩ := Prod.mk.injEq .. |>.mp heq
          exact Or.inl ⟨rfl, rfl, hrest⟩
        · exact Or.inr ⟨hm2, hrest⟩
      · rintro (⟨rfl, rfl, hrest⟩ | ⟨hm2, hrest⟩)
        · exact ⟨List.mem_cons_self _ _, hrest⟩
        · exact ⟨List.mem_cons_of_mem _ hm2, hrest⟩
    cases hob : r0.fvg with
    | none =>
      have hred : (fvgFilter current ((idx, r0) :: rest)).1 = (fvgFilter current rest).1 := by
        simp [fvgFilter, hob]
      rw [hred, ih]
      constructor
      · rintro ⟨r, hm, hrest⟩
        exact ⟨r, (hstep r).mpr (Or.inr ⟨hm, hrest⟩)⟩
      · rintro ⟨r, hall⟩
        rcases (hstep r).mp hall with ⟨_, rfl, h1, _⟩ | ⟨hm2, hrest⟩
        · rw [hob] at h1; cases h1
        · exact ⟨r, hm2, hrest⟩
    | some t0 =>
      cases hmit : mitigatedLe r0.fvg_mitigated current with
      | true =>
        have hred : (fvgFilter current ((idx, r0) :: rest)).1 = (fvgFilter current rest).1 := by
          simp [fvgFilter, hob, hmit]
        rw [hred, ih]
        constructor
        · rintro ⟨r, hm, hrest⟩
          exact ⟨r, (hstep r).mpr (Or.inr ⟨hm, hrest⟩)⟩
        · rintro ⟨r, hall⟩
          rcases (hstep r).mp hall with ⟨_, rfl, _, h2, _⟩ | ⟨hm2, hrest⟩
          · rw [hmit] at h2; cases h2
          · exact ⟨r, hm2, hrest⟩
      | false =>
        by_cases h1 : t0 = 1
        · subst h1
          have hred : (fvgFilter current ((idx, r0) :: rest)).1 =
              (idx, r0.fvg_top, r0.fvg_bottom) :: (fvgFilter current rest).1 := by
            simp [fvgFilter, hob, hmit]
          rw [hred]
          constructor
          · intro hm
            rcases List.mem_cons.mp hm with heq | hm2
            · simp only [Prod.mk.injEq] at heq
              obtain ⟨rfl, rfl, rfl⟩ := heq
              exact ⟨r0, (hstep r0).mpr (Or.inl ⟨rfl, rfl, hob, hmit, rfl, rfl⟩)⟩
            · obtain ⟨r, hm3, hrest⟩ := ih.mp hm2
              exact ⟨r, (hstep r).mpr (Or.inr ⟨hm3, hrest⟩)⟩
          · rintro ⟨r, hall⟩
            rcases (hstep r).mp hall with ⟨rfl, rfl, _, _, rfl, rfl⟩ | ⟨hm2, hrest⟩
            · exact List.mem_cons_self _ _
            · exact List.mem_cons_of_mem _ (ih.mpr ⟨r, hm2, hrest⟩)
        · have hred : (fvgFilter current ((idx, r0) :: rest)).1 = (fvgFilter current rest).1 := by
            by_cases h2 : t0 = -1
            · simp [fvgFilter, hob, hmit, h1, h2, show ¬((-1 : ℚ) = 1) from by norm_num]
            · simp [fvgFilter, hob, hmit, h1, h2]
          rw [hred, ih]
          constructor
          · rintro ⟨r, hm, hrest⟩
            exact ⟨r, (hstep r).mpr (Or.inr ⟨hm, hrest⟩)⟩
          · rintro ⟨r, hall⟩
            rcases (hstep r).mp hall with ⟨_, rfl, hx, _⟩ | ⟨hm2, hrest⟩
            · rw [hob] at hx; exact absurd (Option.some.inj hx) h1
            · exact ⟨r, hm2, hrest⟩

/-- Membership in the bearish output of the FVG scan loop. -/
theorem mem_fvgFilter_bearish (current : ℚ) (l : List (Nat × SMCRow)) (i : Nat)
    (t b : ℚ) :
    ((i, t, b) : FVGTuple) ∈ (fvgFilter current l).2 ↔
      ∃ r, (i, r) ∈ l ∧ r.fvg = some (-1) ∧ mitigatedLe r.fvg_mitigated current = false ∧
        t = r.fvg_top ∧ b = r.fvg_bottom := by
  induction l with
  | nil => simp [fvgFilter]
  | cons p rest ih =>
    obtain ⟨idx, r0⟩ := p
    have hstep :
        ∀ r, ((i, r) ∈ (idx, r0) :: rest ∧ r.fvg = some (-1) ∧
            mitigatedLe r.fvg_mitigated current = false ∧
            t = r.fvg_top ∧ b = r.fvg_bottom) ↔
          ((i = idx ∧ r = r0 ∧ r0.fvg = some (-1) ∧
            mitigatedLe r0.fvg_mitigated current = false ∧
            t = r0.fvg_top ∧ b = r0.fvg_bottom) ∨
          ((i, r) ∈ rest ∧ r.fvg = some (-1) ∧
            mitigatedLe r.fvg_mitigated current = false ∧
            t = r.fvg_top ∧ b = r.fvg_bottom)) := by
      intro r
      constructor
      · rintro ⟨hm, hrest⟩
        rcases List.mem_cons.mp hm with heq | hm2
        · obtain ⟨rfl, rfl⟩ := Prod.mk.injEq .. |>.mp heq
          exact Or.inl ⟨rfl, rfl, hrest⟩
        · exact Or.inr ⟨hm2, hrest⟩
      · rintro (⟨rfl, rfl, hrest⟩ | ⟨hm2, hrest⟩)
        · exact ⟨List.mem_cons_self _ _, hrest⟩
        · exact ⟨List.mem_cons_of_mem _ hm2, hrest⟩
    cases hob : r0.fvg with
    | none =>
      have hred : (fvgFilter current ((idx, r0) :: rest)).2 = (fvgFilter current rest).2 := by
        simp [fvgFilter, hob]
      rw [hred, ih]
      constructor
      · rintro ⟨r, hm, hrest⟩
        exact ⟨r, (hstep r).mpr (Or.inr ⟨hm, hrest⟩)⟩
      · rintro ⟨r, hall⟩
        rcases (hstep r).mp hall with ⟨_, rfl, h1, _⟩ | ⟨hm2, hrest⟩
        · rw [hob] at h1; cases h1
        · exact ⟨r, hm2, hrest⟩
    | some t0 =>
      cases hmit : mitigatedLe r0.fvg_mitigated current with
      | true =>
        have hred : (fvgFilter current ((idx, r0) :: rest)).2 = (fvgFilter current rest).2 := by
          simp [fvgFilter, hob, hmit]
        rw [hred, ih]
        constructor
        · rintro ⟨r, hm, hrest⟩
          exact ⟨r, (hstep r).mpr (Or.inr ⟨hm, hrest⟩)⟩
        · rintro ⟨r, hall⟩
          rcases (hstep r).mp hall with ⟨_, rfl, _, h2, _⟩ | ⟨hm2, hrest⟩
          · rw [hmit] at h2; cases h2
          · exact ⟨r, hm2, hrest⟩
      | false =>
        by_cases h2 : t0 = -1
        · subst h2
          have hred : (fvgFilter current ((idx, r0) :: rest)).2 =
              (idx, r0.fvg_top, r0.fvg_bottom) :: (fvgFilter current rest).2 := by
            simp [fvgFilter, hob, hmit, show ¬((-1 : ℚ) = 1) from by norm_num]
          rw [hred]
          constructor
          · intro hm
            rcases List.mem_cons.mp hm with heq | hm2
            · simp only [Prod.mk.injEq] at heq
              obtain ⟨rfl, rfl, rfl⟩ := heq
              exact ⟨r0, (hstep r0).mpr (Or.inl ⟨rfl, rfl, hob, hmit, rfl, rfl⟩)⟩
            · obtain ⟨r, hm3, hrest⟩ := ih.mp hm2
              exact ⟨r, (hstep r).mpr (Or.inr ⟨hm3, hrest⟩)⟩
          · rintro ⟨r, hall⟩
            rcases (hstep r).mp hall with ⟨rfl, rfl, _, _, rfl, rfl⟩ | ⟨hm2, hrest⟩
            · exact List.mem_cons_self _ _
            · exact List.mem_cons_of_mem _ (ih.mpr ⟨r, hm2, hrest⟩)
        · have hred : (fvgFilter current ((idx, r0) :: rest)).2 = (fvgFilter current rest).2 := by
            by_cases h1 : t0 = 1 <;> simp [fvgFilter, hob, hmit, h1, h2]
          rw [hred, ih]
          constructor
          · rintro ⟨r, hm, hrest⟩
            exact ⟨r, (hstep r).mpr (Or.inr ⟨hm, hrest⟩)⟩
          · rintro ⟨r, hall⟩
            rcases (hstep r).mp hall with ⟨_, rfl, hx, _⟩ | ⟨hm2, hrest⟩
            · rw [hob] at hx; exact absurd (Option.some.inj hx) h2
            · exact ⟨r, hm2, hrest⟩

/-- Full characterization of the bullish active order blocks: exactly the rows
of the trailing window flagged `ob = 1` whose `ob_mitigated` is NaN or strictly
beyond the current index. -/
theorem mem_active_ob_bullish (df : List SMCRow) (lb i : Nat) (t b s : ℚ) :
    ((i, t, b, s) : OBTuple) ∈ (get_active_order_blocks df lb).1 ↔
      startIdx df.length lb ≤ i ∧ i < df.length ∧
      (df.getD i default).ob = some 1 ∧
      ((df.getD i default).ob_mitigated = none ∨
        ∃ m, (df.getD i default).ob_mitigated = some m ∧ (df.length : ℚ) - 1 < m) ∧
      t = (df.getD i default).ob_top ∧ b = (df.getD i default).ob_bottom ∧
      s = (df.getD i default).ob_strength := by
  unfold get_active_order_blocks
  rw [mem_obFilter_bullish]
  constructor
  · rintro ⟨r, hm, hob, hmit, ht, hb, hs⟩
    obtain ⟨hstart, hg⟩ := (mem_recentEnum df lb i r).mp hm
    have hlt : i < df.length := by
      by_contra hc
      rw [List.getElem?_eq_none (by omega)] at hg
      cases hg
    have hr : df.getD i default = r := by
      rw [List.getD_eq_getElem df default hlt]
      rw [List.getElem?_eq_getElem hlt] at hg
      exact Option.some.inj hg
    rw [← hr] at hob hmit ht hb hs
    exact ⟨hstart, hlt, hob, (mitigatedLe_eq_false_iff _ _).mp hmit, ht, hb, hs⟩
  · rintro ⟨hstart, hlt, hob, hmit, ht, hb, hs⟩
    refine ⟨df.getD i default,
      (mem_recentEnum df lb i _).mpr ⟨hstart, ?_⟩, hob,
      (mitigatedLe_eq_false_iff _ _).mpr hmit, ht, hb, hs⟩
    rw [List.getElem?_eq_getElem hlt, List.getD_eq_getElem df default hlt]

/-- Full characterization of the bearish active order blocks. -/
theorem mem_active_ob_bearish (df : List SMCRow) (lb i : Nat) (t b s : ℚ) :
    ((i, t, b, s) : OBTuple) ∈ (get_active_order_blocks df lb).2 ↔
      startIdx df.length lb ≤ i ∧ i < df.length ∧
      (df.getD i default).ob = some (-1) ∧
      ((df.getD i default).ob_mitigated = none ∨
        ∃ m, (df.getD i default).ob_mitigated = some m ∧ (df.length : ℚ) - 1 < m) ∧
      t = (df.getD i default).ob_top ∧ b = (df.getD i default).ob_bottom ∧
      s = (df.getD i default).ob_strength := by
  unfold get_active_order_blocks
  rw [mem_obFilter_bearish]
  constructor
  · rintro ⟨r, hm, hob, hmit, ht, hb, hs⟩
    obtain ⟨hstart, hg⟩ := (mem_recentEnum df lb i r).mp hm
    have hlt : i < df.length := by
      by_contra hc
      rw [List.getElem?_eq_none (by omega)] at hg
      cases hg
    have hr : df.getD i default = r := by
      rw [List.getD_eq_getElem df default hlt]
      rw [List.getElem?_eq_getElem hlt] at hg
      exact Option.some.inj hg
    rw [← hr] at hob hmit ht hb hs
    exact ⟨hstart, hlt, hob, (mitigatedLe_eq_false_iff _ _).mp hmit, ht, hb, hs⟩
  · rintro ⟨hstart, hlt, hob, hmit, ht, hb, hs⟩
    refine ⟨df.getD i default,
      (mem_recentEnum df lb i _).mpr ⟨hstart, ?_⟩, hob,
      (mitigatedLe_eq_false_iff _ _).mpr hmit, ht, hb, hs⟩
    rw [List.getElem?_eq_getElem hlt, List.getD_eq_getElem df default hlt]

/-- Full characterization of the bullish active fair-value gaps. -/
theorem mem_active_fvg_bullish (df : List SMCRow) (lb i : Nat) (t b : ℚ) :
    ((i, t, b) : FVGTuple) ∈ (get_active_fvgs df lb).1 ↔
      startIdx df.length lb ≤ i ∧ i < df.length ∧
      (df.getD i default).fvg = some 1 ∧
      ((df.getD i default).fvg_mitigated = none ∨
        ∃ m, (df.getD i default).fvg_mitigated = some m ∧ (df.length : ℚ) - 1 < m) ∧
      t = (df.getD i default).fvg_top ∧ b = (df.getD i default).fvg_bottom := by
  unfold get_active_fvgs
  rw [mem_fvgFilter_bullish]
  constructor
  · rintro ⟨r, hm, hob, hmit, ht, hb⟩
    obtain ⟨hstart, hg⟩ := (mem_recentEnum df lb i r).mp hm
    have hlt : i < df.length := by
      by_contra hc
      rw [List.getElem?_eq_none (by omega)] at hg
      cases hg
    have hr : df.getD i default = r := by
      rw [List.getD_eq_getElem df default hlt]
      rw [List.getElem?_eq_getElem hlt] at hg
      exact Option.some.inj hg
    rw [← hr] at hob hmit ht hb
    exact ⟨hstart, hlt, hob, (mitigatedLe_eq_false_iff _ _).mp hmit, ht, hb⟩
  · rintro ⟨hstart, hlt, hob, hmit, ht, hb⟩
    refine ⟨df.getD i default,
      (mem_recentEnum df lb i _).mpr ⟨hstart, ?_⟩, hob,
      (mitigatedLe_eq_false_iff _ _).mpr hmit, ht, hb⟩
    rw [List.getElem?_eq_getElem hlt, List.getD_eq_getElem df default hlt]

/-- Full characterization of the bearish active fair-value gaps. -/
theorem mem_active_fvg_bearish (df : List SMCRow) (lb i : Nat) (t b : ℚ) :
    ((i, t, b) : FVGTuple) ∈ (get_active_fvgs df lb).2 ↔
      startIdx df.length lb ≤ i ∧ i < df.length ∧
      (df.getD i default).fvg = some (-1) ∧
      ((df.getD i default).fvg_mitigated = none ∨
        ∃ m, (df.getD i default).fvg_mitigated = some m ∧ (df.length : ℚ) - 1 < m) ∧
      t = (df.getD i default).fvg_top ∧ b = (df.getD i default).fvg_bottom := by
  unfold get_active_fvgs
  rw [mem_fvgFilter_bearish]
  constructor
  · rintro ⟨r, hm, hob, hmit, ht, hb⟩
    obtain ⟨hstart, hg⟩ := (mem_recentEnum df lb i r).mp hm
    have hlt : i < df.length := by
      by_contra hc
      rw [List.getElem?_eq_none (by omega)] at hg
      cases hg
    have hr : df.getD i default = r := by
      rw [List.getD_eq_getElem df default hlt]
      rw [List.getElem?_eq_getElem hlt] at hg
      exact Option.some.inj hg
    rw [← hr] at hob hmit ht hb
    exact ⟨hstart, hlt, hob, (mitigatedLe_eq_false_iff _ _).mp hmit, ht, hb⟩
  · rintro ⟨hstart, hlt, hob, hmit, ht, hb⟩
    refine ⟨df.getD i default,
      (mem_recentEnum df lb i _).mpr ⟨hstart, ?_⟩, hob,
      (mitigatedLe_eq_false_iff _ _).mpr hmit, ht, hb⟩
    rw [List.getElem?_eq_getElem hlt, List.getD_eq_getElem df default hlt]

/-- Rows with neither CHOCH nor BOS are skipped by the backward scan. -/
theorem scanBack_append (l₁ l₂ : List (Nat × SMCRow))
    (h : ∀ p ∈ l₁, p.2.choch = none ∧ p.2.bos = none) :
    scanBack (l₁ ++ l₂) = scanBack l₂ := by
  induction l₁ with
  | nil => rfl
  | cons p rest ih =>
    obtain ⟨idx, r⟩ := p
    have h1 : r.choch = none ∧ r.bos = none := h (idx, r) (List.mem_cons_self _ _)
    simp only [List.cons_append]
    rw [show scanBack ((idx, r) :: (rest ++ l₂)) = scanBack (rest ++ l₂) from by
      simp [scanBack, h1.1, h1.2]]
    exact ih fun p hp => h p (List.mem_cons_of_mem _ hp)

/-- Length of an index-enumerated list. -/
theorem enumFrom_length (s : Nat) (l : List α) : (enumFrom s l).length = l.length := by
  induction l generalizing s with
  | nil => rfl
  | cons c t ih => simp [enumFrom, ih]

/-- Elements of an index-enumerated list. -/
theorem enumFrom_getElem? (l : List α) (s k : Nat) :
    (enumFrom s l)[k]? = l[k]?.map fun a => (s + k, a) := by
  induction l generalizing s k with
  | nil => simp [enumFrom]
  | cons c t ih =>
    cases k with
    | zero => simp [enumFrom]
    | succ j =>
      simp only [enumFrom, List.getElem?_cons_succ]
      rw [ih (s + 1) j]
      have hsk : s + 1 + j = s + (j + 1) := by omega
      rw [hsk]

/-! ## Claim theorems -/

/-- C1 (counterexample): on a 50-candle frame where both the OrderBlock and
LiquiditySweep strategies match, with
`active_strategies = ["liquidity_sweep", "order_block"]`, `check_signals`
returns the OrderBlock signal, not the LiquiditySweep one: `__init__` appends
strategies in the fixed order order_block, liquidity_sweep, silver_bullet,
ignoring the order of `active_strategies`. -/
theorem c1_counterexample :
    (orderBlock_get_signal cfgC1 dfC1 "BTCUSDT").isSome = true ∧
    (liquiditySweep_get_signal cfgC1 dfC1 "BTCUSDT").isSome = true ∧
    (checkSignals cfgC1 sbNone dfC1 "BTCUSDT").map Signal.strategy = some "OrderBlock" ∧
    (checkSignals cfgC1 sbNone dfC1 "BTCUSDT").map Signal.strategy ≠ some "LiquiditySweep" := by
  decide

/-- C1 (amended): `check_signals` returns at most one signal — the first
non-empty signal with the strategies evaluated in the fixed initialization
order order_block, liquidity_sweep, silver_bullet (membership in
`active_strategies` decides inclusion, but not the order); in particular,
whenever the order-block strategy is active and matches, its signal is
returned regardless of where `"order_block"` appears in the list. -/
theorem c1_fixed_order (cfg : Config) (sb : StratFn) (df : List SMCRow)
    (sym : String) (s : Signal)
    (hob : "order_block" ∈ activeStrategies cfg)
    (hsig : orderBlock_get_signal cfg df sym = some s) :
    checkSignals cfg sb df sym = some s := by
  unfold checkSignals strategyList
  rw [if_pos hob, List.singleton_append]
  simp [checkSignalsList, obStratFn, hsig]

/-- Witness for C1 on the concrete two-strategy frame. -/
theorem c1_witness :
    checkSignals cfgOB sbNone dfC1 "BTCUSDT" = some sigC1 :=
  c1_fixed_order cfgOB sbNone dfC1 "BTCUSDT" sigC1 (by decide) (by decide)

/-- C2 (counterexample): on a frame whose last ATR is 500, a LONG at 100000
with no stop basis yields stop-loss 99500, not 99250 as the claim states; with
stop basis 99900 it yields 99900, not 99800. -/
theorem c2_counterexample :
    (get_exit_levels 100000 "LONG" df500 ⟨none⟩).1 ≠ 99250 ∧
    (get_exit_levels 100000 "LONG" df500 ⟨some 99900⟩).1 ≠ 99800 := by decide

/-- C2 (amended): for a LONG with entry 100000 and ATR 500 and no stop basis
in the details, `get_exit_levels` returns stop-loss `entry − ATR = 99500` and
take-profit `entry + 2·(entry − stop_loss) = 101000`; with stop basis 99900 it
returns that stop basis and take-profit 100200.  No `sl_mult`/percentage-floor
formula is applied, and the reward multiple is fixed at 2. -/
theorem c2_exit_levels :
    get_exit_levels 100000 "LONG" df500 ⟨none⟩ = (99500, 101000) ∧
    get_exit_levels 100000 "LONG" df500 ⟨some 99900⟩ = (99900, 100200) := by decide

/-- C5: a strategy raising inside `StrategyManager.check_signals` is treated
as "no signal": dropping it from the list does not change the result, the
remaining strategies are still evaluated, and when no strategy yields a signal
the call returns `None` instead of propagating the exception. -/
theorem c5_error_isolated (ss₁ ss₂ : List StratFn) (e : StratFn)
    (df : List SMCRow) (sym msg : String) (he : e df sym = .error msg) :
    checkSignalsList (ss₁ ++ e :: ss₂) df sym = checkSignalsList (ss₁ ++ ss₂) df sym ∧
    ((∀ s, s ∈ ss₁ ++ ss₂ → ∀ sig, s df sym ≠ .ok (some sig)) →
      checkSignalsList (ss₁ ++ e :: ss₂) df sym = none) := by
  refine ⟨checkSignalsList_drop_error ss₁ ss₂ e df sym msg he, fun h => ?_⟩
  rw [checkSignalsList_drop_error ss₁ ss₂ e df sym msg he]
  exact checkSignalsList_eq_none df sym _ h

/-- Witness for C5 at a concrete strategy list. -/
theorem c5_witness :
    checkSignalsList ([skipStrat] ++ errStrat :: [skipStrat]) [] "BTCUSDT" =
      checkSignalsList ([skipStrat] ++ [skipStrat]) [] "BTCUSDT" ∧
    checkSignalsList ([skipStrat] ++ errStrat :: [skipStrat]) [] "BTCUSDT" = none := by
  have h := c5_error_isolated [skipStrat] [skipStrat] errStrat [] "BTCUSDT" "boom" rfl
  refine ⟨h.1, h.2 ?_⟩
  intro s hs sig hok
  have hss : s = skipStrat := by
    rcases List.mem_append.mp hs with hm | hm <;> simpa using hm
  rw [hss] at hok
  exact Option.noConfusion (Except.ok.inj hok)

/-- C9: with positive entry and an ATR that is positive or missing, the LONG
exit levels bracket the entry (stop below, target above) for every stop basis,
including one on the wrong side of the entry; SHORT is the mirror image. -/
theorem c9_exit_levels_bracket (entry : ℚ) (df : List SMCRow) (d : ExitDetails)
    (hentry : 0 < entry)
    (hatr : ∀ r, df.getLast? = some r → ∀ a, r.atr14 = some a → 0 < a) :
    ((get_exit_levels entry "LONG" df d).1 < entry ∧
     entry < (get_exit_levels entry "LONG" df d).2) ∧
    (entry < (get_exit_levels entry "SHORT" df d).1 ∧
     (get_exit_levels entry "SHORT" df d).2 < entry) := by
  have hA : 0 < exitAtr entry df := exitAtr_pos entry df hentry hatr
  refine ⟨⟨?_, ?_⟩, ?_, ?_⟩
  · rw [get_exit_levels_long_sl]
    by_cases hsb : entry ≤ d.stop_loss.getD entry
    · rw [if_pos hsb]; linarith
    · rw [if_neg hsb]; push_neg at hsb; linarith
  · rw [get_exit_levels_long_tp]
    by_cases hsb : entry ≤ d.stop_loss.getD entry
    · rw [if_pos hsb]; linarith
    · rw [if_neg hsb]; push_neg at hsb; linarith
  · rw [get_exit_levels_short_sl]
    by_cases hsb : d.stop_loss.getD entry ≤ entry
    · rw [if_pos hsb]; linarith
    · rw [if_neg hsb]; push_neg at hsb; linarith
  · rw [get_exit_levels_short_tp]
    by_cases hsb : d.stop_loss.getD entry ≤ entry
    · rw [if_pos hsb]; linarith
    · rw [if_neg hsb]; push_neg at hsb; linarith

/-- Witness for C9 on an empty frame (missing ATR) and a wrong-side stop. -/
theorem c9_witness :
    ((get_exit_levels 100000 "LONG" ([] : List SMCRow) ⟨some 100500⟩).1 < 100000 ∧
     100000 < (get_exit_levels 100000 "LONG" ([] : List SMCRow) ⟨some 100500⟩).2) ∧
    (100000 < (get_exit_levels 100000 "SHORT" ([] : List SMCRow) ⟨some 100500⟩).1 ∧
     (get_exit_levels 100000 "SHORT" ([] : List SMCRow) ⟨some 100500⟩).2 < 100000) :=
  c9_exit_levels_bracket 100000 [] ⟨some 100500⟩ (by decide) (fun r hr => nomatch hr)

/-- C8 (counterexample): with `w = 10`, a 25-candle frame satisfies
`N ≥ 2w + 1` yet `calculate_smc` returns the input unchanged, with no
indicator columns: the actual guard is `N < 2w + 10`. -/
theorem c8_counterexample :
    2 * 10 + 1 ≤ df25.candles.length ∧
    calculate_smc trivLib df25 10 true 14 = df25 ∧
    (calculate_smc trivLib df25 10 true 14).extra = none := by decide

/-- C8 (amended): for every library instance, `calculate_smc` returns its
input unchanged exactly when `N < 2w + 10`, and otherwise performs the
analysis, returning the same candles with all indicator columns attached —
the insufficient-data case is surfaced as an unchanged frame (hence "no
signal" downstream), never a hard failure. -/
theorem c8_insufficient_guard (lib : SMCLib) (df : CalcDF) (w : Nat)
    (fj : Bool) (p : Nat) :
    (df.candles.length < 2 * w + 10 → calculate_smc lib df w fj p = df) ∧
    (2 * w + 10 ≤ df.candles.length →
      (calculate_smc lib df w fj p).extra.isSome = true ∧
      (calculate_smc lib df w fj p).candles = df.candles) := by
  refine ⟨fun h => ?_, fun h => ?_⟩
  · simp only [calculate_smc]; rw [if_pos (by omega)]
  · simp only [calculate_smc]; rw [if_neg (by omega)]; exact ⟨rfl, rfl⟩

/-- Witness for C8 on both sides of the `2w + 10` boundary. -/
theorem c8_witness :
    calculate_smc trivLib df25 10 true 14 = df25 ∧
    (calculate_smc trivLib df30 10 true 14).extra.isSome = true :=
  ⟨(c8_insufficient_guard trivLib df25 10 true 14).1 (by decide),
   ((c8_insufficient_guard trivLib df30 10 true 14).2 (by decide)).1⟩

/-- C10: `calculate_smc` never mutates the caller's DataFrame object: for any
valid caller reference the heap cell behind it is unchanged by the call; in
the insufficient-data branch heap and reference are returned untouched, and in
the sufficient-data branch the result is a freshly allocated object whose
value is the enriched frame of the value-level `calculate_smc`. -/
theorem c10_no_caller_mutation (lib : SMCLib) (h : Heap) (r : Nat) (w : Nat)
    (fj : Bool) (p : Nat) (hr : r < h.next) :
    readRef ((calculate_smc_st lib h r w fj p).1) r = readRef h r ∧
    ((readRef h r).candles.length < w * 2 + 10 →
      calculate_smc_st lib h r w fj p = (h, r)) ∧
    (w * 2 + 10 ≤ (readRef h r).candles.length →
      (calculate_smc_st lib h r w fj p).2 = h.next ∧
      readRef (calculate_smc_st lib h r w fj p).1 (calculate_smc_st lib h r w fj p).2 =
        calculate_smc lib (readRef h r) w fj p) := by
  have hne : r ≠ h.next := Nat.ne_of_lt hr
  by_cases hlen : (readRef h r).candles.length < w * 2 + 10
  · have heq : calculate_smc_st lib h r w fj p = (h, r) := by
      unfold calculate_smc_st; rw [if_pos hlen]
    exact ⟨by rw [heq], fun _ => heq, fun hge => absurd hge (by omega)⟩
  · refine ⟨?_, fun hlt => absurd hlt hlen, fun _ => ?_⟩
    · unfold calculate_smc_st
      rw [if_neg hlen]
      simp [readRef, writeRef, allocRef, hne]
    · unfold calculate_smc_st calculate_smc
      rw [if_neg hlen, if_neg hlen]
      simp [readRef, writeRef, allocRef, enrichCols]

/-- Witness for C10: a one-object heap is untouched by the call. -/
theorem c10_witness :
    readRef ((calculate_smc_st trivLib heap25 0 10 true 14).1) 0 = readRef heap25 0 ∧
    calculate_smc_st trivLib heap25 0 10 true 14 = (heap25, 0) := by
  have h := c10_no_caller_mutation trivLib heap25 0 10 true 14 (by decide)
  exact ⟨h.1, h.2.1 (by decide)⟩

/-- C6 (counterexample): with `period = 2`, the ATR column is already defined
at index 1 (the second candle), although the claim says the first `p = 2`
indices carry no value: the index-0 true range falls back to `high − low`, so
the rolling mean is defined from index `p − 1` on. -/
theorem c6_counterexample :
    (add_atr dfATR 2).getD 1 none = some 2 ∧ 1 < 2 := by decide

/-- The tail of the true-range column, elementwise: entry `i` combines candle
`i` of the tail with the close of the preceding candle. -/
theorem trTail_getD (l : List Candle) (prev : Candle) (i : Nat) (h : i < l.length) :
    (trTail prev l).getD i 0 =
      max ((l.getD i default).high - (l.getD i default).low)
        (max |(l.getD i default).high - (if i = 0 then prev else l.getD (i - 1) default).close|
             |(l.getD i default).low - (if i = 0 then prev else l.getD (i - 1) default).close|) := by
  induction l generalizing prev i with
  | nil => exact absurd h (by simp)
  | cons c rest ih =>
    cases i with
    | zero => simp [trTail]
    | succ j =>
      simp only [trTail, List.getD_cons_succ]
      rw [ih c j (by simpa using h)]
      rcases Nat.eq_zero_or_pos j with hj | hj
      · subst hj; simp
      · obtain ⟨k, rfl⟩ := Nat.exists_eq_succ_of_ne_zero (Nat.pos_iff_ne_zero.mp hj)
        simp [List.getD_cons_succ]

/-- Lengths of the true-range columns. -/
theorem trTail_length (prev : Candle) (l : List Candle) :
    (trTail prev l).length = l.length := by
  induction l generalizing prev with
  | nil => rfl
  | cons c rest ih => simp [trTail, ih]

/-- The true-range column has one entry per candle. -/
theorem trCol_length (df : List Candle) : (trCol df).length = df.length := by
  cases df with
  | nil => rfl
  | cons c rest => simp [trCol, trTail_length]

/-- Value of the rolling mean at an in-range index. -/
theorem rollingMean_getD (p : Nat) (l : List ℚ) (i : Nat) (h : i < l.length) :
    (rollingMean p l).getD i none =
      if i + 1 < p then none
      else some (((l.drop (i + 1 - p)).take p).sum / (p : ℚ)) := by
  unfold rollingMean
  rw [List.getD_eq_getElem _ _ (by simpa using h)]
  rw [List.getElem_map, List.getElem_range]

/-- C6 (amended): for `p ≥ 1`, the ATR column of `add_atr` is defined exactly
from index `p − 1` on (undefined at the first `p − 1` indices, one fewer than
the claim's `p`), each defined entry being the mean of the trailing `p` true
ranges; the true range is `high − low` at index 0 (no previous close exists)
and `max(high − low, |high − prevClose|, |low − prevClose|)` at every later
index. -/
theorem c6_atr_amended (df : List Candle) (p : Nat) (_hp : 1 ≤ p) :
    (∀ i, i < df.length →
      (((add_atr df p).getD i none).isSome = true ↔ p ≤ i + 1)) ∧
    (∀ i, i < df.length → p ≤ i + 1 →
      (add_atr df p).getD i none =
        some ((((trCol df).drop (i + 1 - p)).take p).sum / (p : ℚ))) ∧
    (∀ c rest, df = c :: rest → (trCol df).getD 0 0 = c.high - c.low) ∧
    (∀ i, i + 1 < df.length →
      (trCol df).getD (i + 1) 0 =
        max ((df.getD (i + 1) default).high - (df.getD (i + 1) default).low)
          (max |(df.getD (i + 1) default).high - (df.getD i default).close|
               |(df.getD (i + 1) default).low - (df.getD i default).close|)) := by
  refine ⟨fun i hi => ?_, fun i hi hpi => ?_, fun c rest hdf => ?_, fun i hi => ?_⟩
  · rw [add_atr, rollingMean_getD p _ i (by rwa [trCol_length])]
    by_cases hc : i + 1 < p
    · simp only [if_pos hc, Option.isSome_none, Bool.false_eq_true, false_iff]; omega
    · simp only [if_neg hc, Option.isSome_some, true_iff]; omega
  · rw [add_atr, rollingMean_getD p _ i (by rwa [trCol_length]), if_neg (by omega)]
  · subst hdf; rfl
  · cases df with
    | nil => exact absurd hi (by simp)
    | cons c rest =>
      simp only [trCol, List.getD_cons_succ]
      rw [trTail_getD rest c i (by simpa using hi)]
      rcases Nat.eq_zero_or_pos i with hz | hz
      · subst hz; simp
      · obtain ⟨k, rfl⟩ := Nat.exists_eq_succ_of_ne_zero (Nat.pos_iff_ne_zero.mp hz)
        simp [List.getD_cons_succ]

/-- Witness for C6: the defined ATR entry at index `p − 1 = 1`. -/
theorem c6_witness :
    (add_atr dfATR 2).getD 1 none =
      some ((((trCol dfATR).drop (1 + 1 - 2)).take 2).sum / (2 : ℚ)) :=
  (c6_atr_amended dfATR 2 (by decide)).2.1 1 (by decide) (by decide)

/-- C3: neither `get_active_order_blocks` nor `get_active_fvgs` ever returns
an entity whose `mitigated_at_index` is non-NaN and `≤` the current (last)
index: every returned entity's row has its mitigation index either NaN or
strictly greater than `len(df) − 1`; moreover, for a row of the window flagged
in a given direction, the entity is returned iff its mitigation index is NaN
or strictly greater than the current index. -/
theorem c3_actives_unmitigated (df : List SMCRow) (lb i : Nat) (t b s : ℚ) :
    (((((i, t, b, s) : OBTuple) ∈ (get_active_order_blocks df lb).1 ∨
      ((i, t, b, s) : OBTuple) ∈ (get_active_order_blocks df lb).2) →
      ∀ m, (df.getD i default).ob_mitigated = some m → (df.length : ℚ) - 1 < m) ∧
    ((((i, t, b) : FVGTuple) ∈ (get_active_fvgs df lb).1 ∨
      ((i, t, b) : FVGTuple) ∈ (get_active_fvgs df lb).2) →
      ∀ m, (df.getD i default).fvg_mitigated = some m → (df.length : ℚ) - 1 < m)) ∧
    (∀ d, d = 1 ∨ d = -1 →
      (startIdx df.length lb ≤ i ∧ i < df.length ∧
        (df.getD i default).ob = some d ∧
        t = (df.getD i default).ob_top ∧ b = (df.getD i default).ob_bottom ∧
        s = (df.getD i default).ob_strength) →
      ((((i, t, b, s) : OBTuple) ∈
          (if d = 1 then (get_active_order_blocks df lb).1
           else (get_active_order_blocks df lb).2)) ↔
        ((df.getD i default).ob_mitigated = none ∨
          ∃ m, (df.getD i default).ob_mitigated = some m ∧ (df.length : ℚ) - 1 < m))) ∧
    (∀ d, d = 1 ∨ d = -1 →
      (startIdx df.length lb ≤ i ∧ i < df.length ∧
        (df.getD i default).fvg = some d ∧
        t = (df.getD i default).fvg_top ∧ b = (df.getD i default).fvg_bottom) →
      ((((i, t, b) : FVGTuple) ∈
          (if d = 1 then (get_active_fvgs df lb).1
           else (get_active_fvgs df lb).2)) ↔
        ((df.getD i default).fvg_mitigated = none ∨
          ∃ m, (df.getD i default).fvg_mitigated = some m ∧ (df.length : ℚ) - 1 < m))) := by
  refine ⟨⟨?_, ?_⟩, ?_, ?_⟩
  · intro h m hm
    have hmit : (df.getD i default).ob_mitigated = none ∨
        ∃ m', (df.getD i default).ob_mitigated = some m' ∧ (df.length : ℚ) - 1 < m' := by
      rcases h with h | h
      · exact ((mem_active_ob_bullish df lb i t b s).mp h).2.2.2.1
      · exact ((mem_active_ob_bearish df lb i t b s).mp h).2.2.2.1
    rcases hmit with hnone | ⟨m', hm', hlt⟩
    · rw [hnone] at hm; cases hm
    · rw [hm'] at hm; rwa [← Option.some.inj hm]
  · intro h m hm
    have hmit : (df.getD i default).fvg_mitigated = none ∨
        ∃ m', (df.getD i default).fvg_mitigated = some m' ∧ (df.length : ℚ) - 1 < m' := by
      rcases h with h | h
      · exact ((mem_active_fvg_bullish df lb i t b).mp h).2.2.2.1
      · exact ((mem_active_fvg_bearish df lb i t b).mp h).2.2.2.1
    rcases hmit with hnone | ⟨m', hm', hlt⟩
    · rw [hnone] at hm; cases hm
    · rw [hm'] at hm; rwa [← Option.some.inj hm]
  · rintro d hd ⟨h1, h2, h3, h4, h5, h6⟩
    rcases hd with rfl | rfl
    · rw [if_pos rfl, mem_active_ob_bullish]
      constructor
      · rintro ⟨_, _, _, hm, _⟩; exact hm
      · intro hm; exact ⟨h1, h2, h3, hm, h4, h5, h6⟩
    · rw [if_neg (by norm_num), mem_active_ob_bearish]
      constructor
      · rintro ⟨_, _, _, hm, _⟩; exact hm
      · intro hm; exact ⟨h1, h2, h3, hm, h4, h5, h6⟩
  · rintro d hd ⟨h1, h2, h3, h4, h5⟩
    rcases hd with rfl | rfl
    · rw [if_pos rfl, mem_active_fvg_bullish]
      constructor
      · rintro ⟨_, _, _, hm, _⟩; exact hm
      · intro hm; exact ⟨h1, h2, h3, hm, h4, h5⟩
    · rw [if_neg (by norm_num), mem_active_fvg_bearish]
      constructor
      · rintro ⟨_, _, _, hm, _⟩; exact hm
      · intro hm; exact ⟨h1, h2, h3, hm, h4, h5⟩

/-- Witness for C3: an order block (and FVG) with future mitigation index 5 on
a one-row frame is returned, and the theorem yields `current < 5`. -/
theorem c3_witness : (dfW3.length : ℚ) - 1 < 5 :=
  (c3_actives_unmitigated dfW3 1 0 2 1 3).1.1 (Or.inl (by decide)) 5 (by decide)

/-- C7 (counterexample): a bullish block flagged within the window whose
`mitigated_at_index` equals the current index is *not* returned — the claim's
"at-or-after" (and its "included when equal" consequence) does not hold. -/
theorem c7_counterexample :
    (dfC7.getD 2 default).ob = some 1 ∧
    (dfC7.getD 2 default).ob_mitigated = some ((dfC7.length : ℚ) - 1) ∧
    get_active_order_blocks dfC7 3 = ([], []) := by decide

/-- C4: `get_latest_structure` returns the structure event at the largest
index of the trailing window carrying a non-NaN `choch` or `bos`: whenever no
later row of the frame carries an event, a non-NaN `choch` at row `j` is
reported as a CHOCH with the `choch` direction (taking priority over any `bos`
at the same row), and otherwise a non-NaN `bos` at `j` is reported as a BOS. -/
theorem c4_latest_structure (df : List SMCRow) (lb j : Nat)
    (hst : startIdx df.length lb ≤ j) (hj : j < df.length)
    (hlast : ∀ k, j < k → k < df.length →
      (df.getD k default).choch = none ∧ (df.getD k default).bos = none) :
    (∀ c, (df.getD j default).choch = some c →
      get_latest_structure df lb =
        ⟨some "CHOCH", some (pyInt c), (df.getD j default).structure_level, some j⟩) ∧
    ((df.getD j default).choch = none → ∀ b, (df.getD j default).bos = some b →
      get_latest_structure df lb =
        ⟨some "BOS", some (pyInt b), (df.getD j default).structure_level, some j⟩) := by
  set st := startIdx df.length lb with hst_def
  set l := recentEnum df lb with hl_def
  have hlen : l.length = df.length - st := by
    rw [hl_def]; unfold recentEnum; rw [enumFrom_length, List.length_drop]
  have hpos : j - st < l.length := by omega
  have hget : l[j - st]? = some (j, df.getD j default) := by
    rw [hl_def]; unfold recentEnum
    rw [enumFrom_getElem?, List.getElem?_drop,
      show startIdx df.length lb + (j - st) = j from by omega,
      List.getElem?_eq_getElem hj, List.getD_eq_getElem df default hj]
    rfl
  have helem : l[j - st] = (j, df.getD j default) := by
    have h2 : some l[j - st] = some (j, df.getD j default) := by
      rw [← List.getElem?_eq_getElem hpos, hget]
    exact Option.some.inj h2
  have hdecomp : l.reverse = (l.drop (j - st + 1)).reverse ++
      ((j, df.getD j default) :: (l.take (j - st)).reverse) := by
    conv_lhs => rw [← List.take_append_drop (j - st) l]
    rw [List.reverse_append, List.drop_eq_getElem_cons hpos, helem]
    simp [List.append_assoc]
  have hnoev : ∀ p ∈ (l.drop (j - st + 1)).reverse,
      p.2.choch = none ∧ p.2.bos = none := by
    intro p hp
    rw [List.mem_reverse] at hp
    obtain ⟨k, hk⟩ := List.mem_iff_getElem?.mp hp
    rw [List.getElem?_drop] at hk
    rw [hl_def] at hk; unfold recentEnum at hk
    rw [enumFrom_getElem?, List.getElem?_drop] at hk
    cases hdf : df[startIdx df.length lb + (j - st + 1 + k)]? with
    | none => rw [hdf] at hk; cases hk
    | some r =>
      rw [hdf] at hk
      have hklt : startIdx df.length lb + (j - st + 1 + k) < df.length := by
        by_contra hc
        rw [List.getElem?_eq_none (by omega)] at hdf
        cases hdf
      have hrow : df.getD (startIdx df.length lb + (j - st + 1 + k)) default = r := by
        rw [List.getD_eq_getElem df default hklt]
        rw [List.getElem?_eq_getElem hklt] at hdf
        exact Option.some.inj hdf
      have hev := hlast (startIdx df.length lb + (j - st + 1 + k)) (by omega) hklt
      rw [hrow] at hev
      obtain rfl : (startIdx df.length lb + (j - st + 1 + k), r) = p :=
        Option.some.inj hk
      exact hev
  have hmain : get_latest_structure df lb =
      scanBack ((j, df.getD j default) :: (l.take (j - st)).reverse) := by
    unfold get_latest_structure
    rw [← hl_def, hdecomp, scanBack_append _ _ hnoev]
  refine ⟨fun c hc => ?_, fun hnone b hb => ?_⟩
  · rw [hmain]; simp only [scanBack]; rw [hc]
  · rw [hmain]; simp only [scanBack]; rw [hnone, hb]

/-- Witness for C4: a CHOCH on the last row of a two-row frame. -/
theorem c4_witness :
    get_latest_structure dfC4 2 =
      ⟨some "CHOCH", some (pyInt 1), (dfC4.getD 1 default).structure_level, some 1⟩ :=
  (c4_latest_structure dfC4 2 1 (by decide) (by decide)
    (fun k hk1 hk2 => absurd hk2 (by
      have hlen2 : dfC4.length = 2 := rfl
      omega))).1 1 (by decide)

/-- C7 (amended): `get_active_order_blocks(lookback)` returns, per direction,
exactly the blocks flagged within the trailing `lookback` rows whose
`mitigated_at_index` is NaN or strictly after the current index; a block whose
`mitigated_at_index` equals the current index is excluded. -/
theorem c7_active_ob_exact (df : List SMCRow) (lb i : Nat) (t b s : ℚ) :
    (((i, t, b, s) : OBTuple) ∈ (get_active_order_blocks df lb).1 ↔
      startIdx df.length lb ≤ i ∧ i < df.length ∧
      (df.getD i default).ob = some 1 ∧
      ((df.getD i default).ob_mitigated = none ∨
        ∃ m, (df.getD i default).ob_mitigated = some m ∧ (df.length : ℚ) - 1 < m) ∧
      t = (df.getD i default).ob_top ∧ b = (df.getD i default).ob_bottom ∧
      s = (df.getD i default).ob_strength) ∧
    (((i, t, b, s) : OBTuple) ∈ (get_active_order_blocks df lb).2 ↔
      startIdx df.length lb ≤ i ∧ i < df.length ∧
      (df.getD i default).ob = some (-1) ∧
      ((df.getD i default).ob_mitigated = none ∨
        ∃ m, (df.getD i default).ob_mitigated = some m ∧ (df.length : ℚ) - 1 < m) ∧
      t = (df.getD i default).ob_top ∧ b = (df.getD i default).ob_bottom ∧
      s = (df.getD i default).ob_strength) :=
  ⟨mem_active_ob_bullish df lb i t b s, mem_active_ob_bearish df lb i t b s⟩
